import Mathlib

/-!
# Verification of the ag-crud-rethink realtime CRUD engine

A shallow embedding of the realtime-coherence engine of the repository:
the per-resource cache (`src/cache.js`), the view-affect calculator and
publication dispatcher (`src/index.js`), the database error classifier
(`errors.create`), the query/model validator (`validate.js`), and the
outbound publish filter of the access controller
(`src/access-controller.js`).

JavaScript documents are modelled as flat association lists of primitive
values.  JavaScript strict equality (`===`) coincides with structural
equality on primitives; object references, which are never compared in
the verified paths except through `jsonStableStringify`, are modelled
structurally.  Timers are modelled as nondeterministic eviction events.
-/

namespace AgCrudRethink

/-- A primitive JavaScript value: `undefined`, `null`, booleans, numbers
(restricted to integers), strings, and an opaque function marker (used
only by the `typeof value === 'function'` checks of the publication
dispatcher). -/
inductive JPrim where
  | undefined
  | jnull
  | bool (b : Bool)
  | num (n : Int)
  | str (s : String)
  | jfun
deriving DecidableEq, Repr

/-- A JavaScript document: an ordered association list from property
names to primitive values (insertion order, as JS objects preserve it). -/
abbrev JRecord := List (String × JPrim)

/-- A JavaScript value as it flows through the engine call sites:
either a primitive or a (flat) document. -/
inductive JVal where
  | prim (p : JPrim)
  | record (r : JRecord)
deriving DecidableEq, Repr

/-- JS property read `obj[key]`: the bound value, or `undefined` when
the key is absent. -/
def jget (r : JRecord) (k : String) : JPrim :=
  match r.find? (fun p => p.1 == k) with
  | some p => p.2
  | none => .undefined

/-- JS property assignment `obj[key] = v`: replaces the value in place
when the key exists (property order is first-insertion order), appends
otherwise. -/
def jset (r : JRecord) (k : String) (v : JPrim) : JRecord :=
  match r with
  | [] => [(k, v)]
  | (k', v') :: rest =>
    if k' = k then (k', v) :: rest else (k', v') :: jset rest k v

/-- Removal of a property (used for rest-destructuring
`let \x7ba, b, ...rest\x7d = obj`). -/
def jremove (r : JRecord) (k : String) : JRecord :=
  r.filter (fun p => p.1 ≠ k)

/-- JS truthiness of a primitive value. -/
def jsTruthy : JPrim → Bool
  | .undefined => false
  | .jnull => false
  | .bool b => b
  | .num n => n != 0
  | .str s => s ≠ ""
  | .jfun => true

/-- Truthiness of a general value: objects are always truthy. -/
def jsTruthyV : JVal → Bool
  | .prim p => jsTruthy p
  | .record _ => true

/-- JS `ToString` coercion as used for property keys and string
concatenation. -/
def jsToString : JPrim → String
  | .undefined => "undefined"
  | .jnull => "null"
  | .bool b => if b then "true" else "false"
  | .num n => toString n
  | .str s => s
  | .jfun => "function"

/-- Property-key coercion for a general value; a plain object coerces
to `[object Object]`. -/
def toPropertyKey : JVal → String
  | .prim p => jsToString p
  | .record _ => "[object Object]"

/-- JS strict equality (`===`).  Exact on primitives.  Two object values
are compared by reference in JS; a value model cannot express aliasing,
so distinct record literals are conservatively unequal (the verified
call sites only ever compare type strings and `undefined`). -/
def jsStrictEq : JVal → JVal → Bool
  | .prim a, .prim b => a == b
  | _, _ => false

/-- An engine error, identified by its `name` (plus the raw message and
the `primaryKey` property for database errors; other message texts are
not modelled). -/
structure ErrInfo where
  name : String
  message : String := ""
  primaryKey : Option String := none
deriving DecidableEq, Repr

/-! ## Database error classification (`errors.create`, src/unnamed/part_000)

```js
const DOCUMENT_NOT_FOUND_REGEX =
  new RegExp('^The query did not find a document and returned null.*');
const DUPLICATE_PRIMARY_KEY_REGEX =
  new RegExp('^Duplicate primary key `(.*)`.*');
```
`.` in a JS regex does not match line terminators; neither pattern is
anchored at the end, so each matches any message extending a matching
prefix.  The greedy `(.*)` captures up to the last backtick of the
first line after the fixed prefix. -/

/-- JS line terminators (not matched by `.`). -/
def isLineTerm (c : Char) : Bool :=
  c = '\n' || c = '\r' || c = '\u2028' || c = '\u2029'

/-- The fixed text of `DOCUMENT_NOT_FOUND_REGEX` before `.*`. -/
def docNotFoundStart : List Char :=
  "The query did not find a document and returned null".data

/-- The fixed text of `DUPLICATE_PRIMARY_KEY_REGEX` before the capture
group (ends with a backtick). -/
def dupKeyStart : List Char :=
  "Duplicate primary key \x60".data

/-- Index (from the left) of the last occurrence of `c`, if any. -/
def lastIdxOf (c : Char) : List Char → Option Nat
  | [] => none
  | x :: rest =>
    match lastIdxOf c rest with
    | some j => some (j + 1)
    | none => if x = c then some 0 else none

/-- The capture of `^Duplicate primary key \x60(.*)\x60.*` on a message,
when the message matches: the greedy group runs to the last backtick of
the maximal line-terminator-free stretch after the opening backtick. -/
def dupCapture (msg : List Char) : Option (List Char) :=
  if dupKeyStart.isPrefixOf msg then
    let rest := msg.drop dupKeyStart.length
    let firstLine := rest.takeWhile (fun c => !isLineTerm c)
    match lastIdxOf '\x60' firstLine with
    | some i => some (firstLine.take i)
    | none => none
  else none

/-- `errors.create(rawError)` restricted to a string message: classify
the message into one of the three database error kinds. -/
def createDbError (msg : List Char) : ErrInfo :=
  if docNotFoundStart.isPrefixOf msg then
    { name := "DocumentNotFoundError", message := msg.asString }
  else
    match dupCapture msg with
    | some k =>
      { name := "DuplicatePrimaryKeyError", message := msg.asString,
        primaryKey := some k.asString }
    | none => { name := "DatabaseError", message := msg.asString }

/-! ## Cache (src/cache.js)

The cache is modelled as a state machine.  One state holds the cache
map (keyed by `resourcePath`), the per-path waiter lists, and two ghost
logs recording how waiters were settled.  The `outstanding` list is a
ghost variable recording the paths whose provider has been launched and
has not yet settled.  Timer expiry (`set`'s single-shot timeout) and
`clear` are modelled as a nondeterministic `evict` event, enabled
whenever the entry exists. -/

/-- The object stored for a path (the value returned by `Cache#get`):
either the `\x7bpending: true, patch\x7d` placeholder installed on a
miss, or the loaded resource wrapper. -/
inductive CEntry where
  | pending (patch : JRecord)
  | resident (resource : JRecord)
deriving DecidableEq, Repr

/-- The query fields consulted by `Cache#_getResourcePath`. -/
structure CQuery where
  type : JPrim
  id : JPrim
deriving DecidableEq, Repr

/-- `_getResourcePath`: `null` when either part is falsy, otherwise
`type + '/' + id`. -/
def getResourcePath (q : CQuery) : Option String :=
  if !jsTruthy q.type || !jsTruthy q.id then none
  else some (jsToString q.type ++ "/" ++ jsToString q.id)

/-- Cache machine state.  `resolvedLog`/`rejectedLog` are ghost logs of
watcher settlements (watcher id paired with the delivered value or
error). -/
structure CacheState where
  cache : List (String × CEntry)
  watchers : List (String × List Nat)
  outstanding : List String
  resolvedLog : List (Nat × JRecord)
  rejectedLog : List (Nat × ErrInfo)
deriving DecidableEq, Repr

def initCacheState : CacheState :=
  { cache := [], watchers := [], outstanding := [],
    resolvedLog := [], rejectedLog := [] }

/-- Association-list lookup. -/
def alookup {α : Type} (l : List (String × α)) (k : String) : Option α :=
  match l.find? (fun p => p.1 == k) with
  | some p => some p.2
  | none => none

/-- Association-list overwrite-or-insert. -/
def aset {α : Type} (l : List (String × α)) (k : String) (v : α) :
    List (String × α) :=
  match l with
  | [] => [(k, v)]
  | (k', v') :: rest =>
    if k' = k then (k', v) :: rest else (k', v') :: aset rest k v

/-- Association-list deletion. -/
def aremove {α : Type} (l : List (String × α)) (k : String) :
    List (String × α) :=
  l.filter (fun p => p.1 ≠ k)

/-- `_pushWatcher`. -/
def pushWatcher (s : CacheState) (path : String) (wid : Nat) : CacheState :=
  { s with
    watchers := aset s.watchers path ((alookup s.watchers path).getD [] ++ [wid]) }

/-- `_resolveCacheWatchers`: resolve every watcher of the path with the
same data and drop the list. -/
def resolveWatchers (s : CacheState) (path : String) (data : JRecord) :
    CacheState :=
  { s with
    watchers := aremove s.watchers path,
    resolvedLog :=
      s.resolvedLog ++ ((alookup s.watchers path).getD []).map (fun w => (w, data)) }

/-- `_rejectCacheWatchers`. -/
def rejectWatchers (s : CacheState) (path : String) (e : ErrInfo) :
    CacheState :=
  { s with
    watchers := aremove s.watchers path,
    rejectedLog :=
      s.rejectedLog ++ ((alookup s.watchers path).getD []).map (fun w => (w, e)) }

/-- The synchronous part of `Cache#pass` (with the cache enabled).
Returns the new state and whether a provider was launched.  A query
without a resource path bypasses the cache and calls the provider
directly (no watcher, no entry, no per-path tracking). -/
def passStep (s : CacheState) (q : CQuery) (wid : Nat) : CacheState × Bool :=
  match getResourcePath q with
  | none => (s, true)
  | some path =>
    let s1 := pushWatcher s path wid
    match alookup s.cache path with
    | some entry =>
      match entry with
      | .pending _ => (s1, false)
      | .resident r =>
        -- `this.set(query, cacheEntry, resourcePath)` refreshes the TTL;
        -- the stored content is unchanged.
        (resolveWatchers s1 path r, false)
    | none =>
      let s2 := { s1 with cache := aset s1.cache path (.pending []) }
      ({ s2 with outstanding := path :: s2.outstanding }, true)

/-- Provider success (the tail of the async block in `pass`): merge any
accumulated patch onto the loaded data (patch fields win), store the
resident entry, resolve all watchers with the merged data. -/
def doneStep (s : CacheState) (path : String) (data : JRecord) : CacheState :=
  let merged :=
    match alookup s.cache path with
    | some (.pending patch) => patch.foldl (fun d p => jset d p.1 p.2) data
    | _ => data
  let s1 := { s with
    cache := aset s.cache path (.resident merged),
    outstanding := s.outstanding.erase path }
  resolveWatchers s1 path merged

/-- Provider failure: reject all watchers with the provider's error.
The pending cache entry is left in place (the `catch` branch of `pass`
only calls `_rejectCacheWatchers` and returns). -/
def failStep (s : CacheState) (path : String) (e : ErrInfo) : CacheState :=
  rejectWatchers { s with outstanding := s.outstanding.erase path } path e

/-- Timer expiry or `Cache#clear`: the entry is removed; watchers and
ghost logs are untouched. -/
def evictStep (s : CacheState) (path : String) : CacheState :=
  { s with cache := s.cache.filter (fun p => p.1 ≠ path) }

/-- `Cache#update`: overlay the query's value onto the pending patch or
directly onto the resident resource. -/
def updateStep (s : CacheState) (q : CQuery) (value : JRecord) : CacheState :=
  match getResourcePath q with
  | none => s
  | some path =>
    match alookup s.cache path with
    | some (.pending patch) =>
      { s with
        cache := aset s.cache path (.pending (value.foldl (fun d p => jset d p.1 p.2) patch)) }
    | some (.resident r) =>
      { s with
        cache := aset s.cache path (.resident (value.foldl (fun d p => jset d p.1 p.2) r)) }
    | none => s

/-- Reachability of a cache state by any interleaving of `pass` calls,
provider settlements (enabled only for launched providers), evictions
(enabled only while the entry exists) and `update` calls. -/
inductive CReach : CacheState → Prop where
  | init : CReach initCacheState
  | passR {s} (q : CQuery) (wid : Nat) :
      CReach s → CReach (passStep s q wid).1
  | doneR {s} (path : String) (data : JRecord) :
      CReach s → path ∈ s.outstanding → CReach (doneStep s path data)
  | failR {s} (path : String) (e : ErrInfo) :
      CReach s → path ∈ s.outstanding → CReach (failStep s path e)
  | evictR {s} (path : String) :
      CReach s → (alookup s.cache path).isSome → CReach (evictStep s path)
  | updateR {s} (q : CQuery) (value : JRecord) :
      CReach s → CReach (updateStep s q value)

/-- Restricted reachability: identical, except that an entry is never
evicted while a provider for its path is outstanding (no expiry or
clear during a load). -/
inductive CReachSafe : CacheState → Prop where
  | init : CReachSafe initCacheState
  | passR {s} (q : CQuery) (wid : Nat) :
      CReachSafe s → CReachSafe (passStep s q wid).1
  | doneR {s} (path : String) (data : JRecord) :
      CReachSafe s → path ∈ s.outstanding → CReachSafe (doneStep s path data)
  | failR {s} (path : String) (e : ErrInfo) :
      CReachSafe s → path ∈ s.outstanding → CReachSafe (failStep s path e)
  | evictR {s} (path : String) :
      CReachSafe s → (alookup s.cache path).isSome →
      path ∉ s.outstanding → CReachSafe (evictStep s path)
  | updateR {s} (q : CQuery) (value : JRecord) :
      CReachSafe s → CReachSafe (updateStep s q value)

/-! ## Stable JSON stringification (`json-stable-stringify`)

Used by `_areObjectsEqual` and `_getViewChannelName`: object keys are
sorted lexicographically; `undefined` and function values are dropped
from objects, as in `JSON.stringify`. -/

/-- JSON string quoting (escaping the quote, backslash and common
control characters). -/
def jsonQuote (s : String) : String :=
  "\"" ++ String.join (s.data.map (fun c =>
    if c = '"' then "\\\""
    else if c = '\\' then "\\\\"
    else if c = '\n' then "\\n"
    else if c = '\r' then "\\r"
    else if c = '\t' then "\\t"
    else String.singleton c)) ++ "\""

/-- JSON serialisation of a primitive; `none` for values that
`JSON.stringify` omits from objects. -/
def serializePrim : JPrim → Option String
  | .undefined => none
  | .jfun => none
  | .jnull => some "null"
  | .bool b => some (if b then "true" else "false")
  | .num n => some (toString n)
  | .str s => some (jsonQuote s)

/-- Insertion into a key-sorted association list. -/
def insertByKey (p : String × JPrim) : JRecord → JRecord
  | [] => [p]
  | q :: rest => if p.1 ≤ q.1 then p :: q :: rest else q :: insertByKey p rest

/-- Key-sort of a record (JS `Array#sort` over the object's keys). -/
def sortByKey (r : JRecord) : JRecord :=
  r.foldr insertByKey []

/-- `jsonStableStringify` on a flat document. -/
def stableStringifyRec (r : JRecord) : String :=
  "\x7b" ++ String.intercalate ","
    ((sortByKey r).filterMap (fun p =>
      (serializePrim p.2).map (fun sv => jsonQuote p.1 ++ ":" ++ sv)))
  ++ "\x7d"

/-- `_areObjectsEqual(objectA, objectB)`; `none` stands for an
`undefined` argument, which `|| \x7b\x7d` replaces with the empty
object. -/
def areObjectsEqual (a b : Option JRecord) : Bool :=
  stableStringifyRec (a.getD []) == stableStringifyRec (b.getD [])

/-! ## View-affect engine (src/index.js, `getAffectedViews`)

The engine owns two precomputed indices built by the constructor:
`_foreignViews` (keyed by the foreign model named in
`foreignAffectingFields`) and `_typeRelations`
(`sourceType → targetType → fieldName → relationFn`).  Relation
functions are modelled as `JPrim → JPrim` applied to the value passed
as `_mapResourceField`'s `fieldValue` parameter. -/

/-- The fields of a view schema object consulted by the engine
(`paramFields`/`affectingFields`; `|| []` applied by the reader). -/
structure ViewSchemaData where
  paramFields : List String := []
  affectingFields : List String := []
deriving DecidableEq, Repr

/-- A `_foreignViews[type][viewName]` entry. -/
structure ForeignViewData where
  paramFields : List String := []
  affectingFields : List String := []
  parentType : String
deriving DecidableEq, Repr

/-- The relation index `_typeRelations`. -/
abbrev TypeRelations :=
  List (String × List (String × List (String × (JPrim → JPrim))))

/-- The read-only engine context: per-model view schemas, the
foreign-view index, and the relation index. -/
structure EngineCtx where
  schemaViews : List (String × List (String × ViewSchemaData)) := []
  foreignViews : List (String × List (String × ForeignViewData)) := []
  typeRelations : TypeRelations := []

/-- `_getViews` (the model's `views` map, `\x7b\x7d` when absent). -/
def getViews (ctx : EngineCtx) (t : String) : List (String × ViewSchemaData) :=
  (alookup ctx.schemaViews t).getD []

/-- `_getForeignViews`. -/
def getForeignViews (ctx : EngineCtx) (t : String) :
    List (String × ForeignViewData) :=
  (alookup ctx.foreignViews t).getD []

/-- Three-level lookup in the relation index
(`_typeRelations[sourceType] && _typeRelations[sourceType][targetType]
&& _typeRelations[sourceType][targetType][fieldName]`); property keys
are coerced to strings as in JS. -/
def lookupRelation (tr : TypeRelations) (sourceKey targetKey fieldKey : String) :
    Option (JPrim → JPrim) :=
  (alookup tr sourceKey).bind (fun m =>
    (alookup m targetKey).bind (fun m2 => alookup m2 fieldKey))

/-- `_mapResourceField(fieldName, fieldValue, sourceType, targetType)`:
returns `some value` for a successful mapping, `none` for
`\x7bsuccess: false\x7d`. -/
def mapResourceField (tr : TypeRelations) (fieldName : JVal)
    (fieldValue : JPrim) (sourceType targetType : JPrim) : Option JPrim :=
  if sourceType == targetType then some fieldValue
  else
    match lookupRelation tr (jsToString sourceType) (jsToString targetType)
        (toPropertyKey fieldName) with
    | some relationFn => some (relationFn fieldValue)
    | none => none

/-- The argument object of `getAffectedViews`. -/
structure UpdateDetails where
  type : JPrim
  resource : Option JRecord := none
  fields : Option (List String) := none

/-- One element of the list returned by `getAffectedViews`. -/
structure AffectedView where
  view : String
  type : JPrim
  params : JRecord
  affectingData : JRecord
deriving DecidableEq, Repr

/-- A candidate view: its name, its target type (`viewData.type`) and
its schema fields. -/
def candidateViews (ctx : EngineCtx) (t : String) :
    List (String × JPrim × ViewSchemaData) :=
  (getViews ctx t).map (fun p => (p.1, JPrim.str t, p.2)) ++
  (getForeignViews ctx t).map (fun p =>
    (p.1, JPrim.str p.2.parentType,
      { paramFields := p.2.paramFields,
        affectingFields := p.2.affectingFields }))

/-- `getAffectedViews(updateDetails)`.  NOTE: the source invokes
`this._mapResourceField(resource, updateDetails.type, viewData.type)`
with three arguments against the four-parameter signature
`(fieldName, fieldValue, sourceType, targetType)`, so inside each loop
the whole resource object arrives as `fieldName`, the update's type as
`fieldValue`, the candidate's type as `sourceType`, and `targetType` is
`undefined`.  The embedding reproduces that call shape exactly. -/
def getAffectedViews (ctx : EngineCtx) (ud : UpdateDetails) : List AffectedView :=
  let resource := ud.resource.getD []
  (candidateViews ctx (jsToString ud.type)).filterMap (fun c =>
    let viewName := c.1
    let candType := c.2.1
    let paramFields := c.2.2.paramFields
    let affectingFields := c.2.2.affectingFields
    let pa := paramFields.foldl (fun (pa : JRecord × JRecord) fieldName =>
      match mapResourceField ctx.typeRelations (.record resource) ud.type
          candType .undefined with
      | some value => (jset pa.1 fieldName value, jset pa.2 fieldName value)
      | none =>
        (jset pa.1 fieldName (jget resource fieldName),
         jset pa.2 fieldName (jget resource fieldName))) ([], [])
    let affectingData := affectingFields.foldl (fun ad fieldName =>
      match mapResourceField ctx.typeRelations (.record resource) ud.type
          candType .undefined with
      | some value => jset ad fieldName value
      | none => jset ad fieldName (jget resource fieldName)) pa.2
    let accept :=
      match ud.fields with
      | none => true
      | some updatedFields =>
        updatedFields.any (fun f =>
          f = "id" || paramFields.contains f || affectingFields.contains f)
    if accept then
      some { view := viewName, type := candType, params := pa.1,
             affectingData := affectingData }
    else none)

/-- The query fields consulted by the CRUD operations. -/
structure Query where
  type : String
  id : Option String := none
  field : Option String := none
  value : Option JVal := none
deriving Repr

/-- `getQueryAffectedViews(query, resource)`. -/
def getQueryAffectedViews (ctx : EngineCtx) (q : Query)
    (resource : Option JRecord) : List AffectedView :=
  getAffectedViews ctx
    { type := .str q.type, resource := resource,
      fields := q.field.map (fun f => [f]) }

/-! ## Publication dispatcher (src/index.js)

A publication is one `this.publish(channelName, payload?)` call; the
event records the arguments from which the channel name is formatted
(the formatting itself is injective per channel shape and plays no role
in the verified claims). -/

/-- Payload of a resource-field publication. -/
inductive FieldPayload where
  | updateVal (v : JVal)
  | deleteMark
deriving DecidableEq, Repr

/-- Payload of a view publication:
`\x7btype: 'create'|'update'|'delete', value: \x7bid, ...\x7d\x7d`. -/
structure ViewPayload where
  opType : String
  value : JRecord
deriving DecidableEq, Repr

/-- One `publish` call. -/
inductive PubEvent where
  | resourceCh (type : String) (id : JPrim)
  | fieldCh (type : String) (id : JPrim) (fieldName : String)
      (payload : Option FieldPayload)
  | viewCh (view : JPrim) (params : Option JRecord) (type : JPrim)
      (payload : Option ViewPayload)
deriving DecidableEq, Repr

def isResourcePub : PubEvent → Bool
  | .resourceCh _ _ => true
  | _ => false

def isFieldPub : PubEvent → Bool
  | .fieldCh _ _ _ _ => true
  | _ => false

def isViewPub : PubEvent → Bool
  | .viewCh _ _ _ _ => true
  | _ => false

/-- `\x7bid: X, ...affectingData\x7d`: the spread overwrites `id` when
`affectingData` carries one, keeping first-insertion order. -/
def mkViewValue (idv : JPrim) (affectingData : JRecord) : JRecord :=
  affectingData.foldl (fun r p => jset r p.1 p.2) [("id", idv)]

/-- The resource id of a query as a JS value. -/
def qid (q : Query) : JPrim :=
  match q.id with
  | some i => .str i
  | none => .undefined

/-- `value === undefined ? null : value` followed by the
`typeof value === 'function'` guard: the field publication's payload,
or `none` for a name-only publication. -/
def fieldUpdatePayload (v : JVal) : Option FieldPayload :=
  let cleanValue := if v = .prim .undefined then JVal.prim .jnull else v
  if cleanValue = .prim .jfun then none else some (.updateVal cleanValue)

/-- The field-channel publications of the `_update` success handler:
one for `query.field`, or one per key of `query.value`. -/
def updateFieldPubs (q : Query) : List PubEvent :=
  match q.field with
  | some f =>
    [.fieldCh q.type (qid q) f (fieldUpdatePayload ((q.value).getD (.prim .undefined)))]
  | none =>
    let queryValue := match q.value with
      | some (.record r) => r
      | _ => []
    queryValue.map (fun p =>
      .fieldCh q.type (qid q) p.1 (fieldUpdatePayload (.prim p.2)))

/-- The view-channel publications of the `_update` success handler:
for each newly affected view, compare old and new `params` via
`_areObjectsEqual`; publish once on the unchanged channel when only
`affectingData` changed, or on both the old and the new channel when
`params` moved. -/
def updateViewPubs (ctx : EngineCtx) (q : Query)
    (oldAffected : List AffectedView) (result : JRecord) : List PubEvent :=
  let oldViewDataMap := oldAffected.foldl
    (fun m vd => aset m (vd.view ++ ":" ++ jsToString vd.type) vd) []
  let newAffected := getQueryAffectedViews ctx q (some result)
  newAffected.foldl (fun acc vd =>
    let oldViewData := alookup oldViewDataMap (vd.view ++ ":" ++ jsToString vd.type)
    let areViewParamsEqual :=
      areObjectsEqual (oldViewData.map (·.params)) (some vd.params)
    if areViewParamsEqual then
      let areAffectingDataEqual :=
        areObjectsEqual (oldViewData.map (·.affectingData)) (some vd.affectingData)
      if areAffectingDataEqual then acc
      else acc ++ [.viewCh (.str vd.view) (some vd.params) vd.type
        (some { opType := "update", value := mkViewValue (qid q) vd.affectingData })]
    else
      acc ++
        [.viewCh ((oldViewData.map (fun o => JPrim.str o.view)).getD .undefined)
           (oldViewData.map (·.params))
           ((oldViewData.map (·.type)).getD .undefined)
           (some { opType := "update", value := mkViewValue (qid q) vd.affectingData }),
         .viewCh (.str vd.view) (some vd.params) vd.type
           (some { opType := "update", value := mkViewValue (qid q) vd.affectingData })])
    []

/-- The full publication sequence of the `_update` success handler:
resource channel, then field channels, then view channels. -/
def updateSuccessPubs (ctx : EngineCtx) (q : Query)
    (oldAffected : List AffectedView) (result : JRecord) : List PubEvent :=
  .resourceCh q.type (qid q) ::
    (updateFieldPubs q ++ updateViewPubs ctx q oldAffected result)

/-- The publication sequence of the `_create` success handler:
resource channel on the inserted id, then one `create` publication per
affected view. -/
def createSuccessPubs (ctx : EngineCtx) (q : Query) (result : JRecord) :
    List PubEvent :=
  .resourceCh q.type (jget result "id") ::
  (getQueryAffectedViews ctx q (some result)).map (fun vd =>
    .viewCh (.str vd.view) (some vd.params) vd.type
      (some { opType := "create",
              value := mkViewValue (jget result "id") vd.affectingData }))

/-- The publication sequence of the `_delete` success handler.  For a
field deletion: the single field channel.  For a whole-document
deletion: every old-affected view channel, then a `delete` publication
on the channel of every field of the model schema (or, when the schema
declares no fields, every key of the database result). -/
def deleteSuccessPubs (_ctx : EngineCtx) (q : Query)
    (oldAffected : List AffectedView) (schemaFields : Option (List String))
    (result : JRecord) : List PubEvent :=
  .resourceCh q.type (qid q) ::
  match q.field with
  | some f => [.fieldCh q.type (qid q) f (some .deleteMark)]
  | none =>
    let deletedFields : List String := match schemaFields with
      | some fs => fs
      | none => result.map (fun p => p.1)
    (oldAffected.map (fun vd =>
      .viewCh (.str vd.view) (some vd.params) vd.type
        (some { opType := "delete",
                value := mkViewValue (qid q) vd.affectingData }))) ++
    deletedFields.map (fun f => .fieldCh q.type (qid q) f (some .deleteMark))

/-! ## Operation traces (`_create`, `_update`)

The asynchronous interactions (database rows, the validator, the post
access filter) enter as parameters; the trace records the publish
calls, the emitted engine events, the number of database write calls
issued, and the operation's settlement. -/

/-- An emitted engine event. -/
inductive EmitEvent where
  | errorE (e : ErrInfo)
  | createFailE (e : ErrInfo)
  | updateFailE (e : ErrInfo)
  | deleteFailE (e : ErrInfo)
  | createdE
  | updatedE
  | deletedE
deriving DecidableEq, Repr

/-- The observable trace of one operation call. -/
structure OpTrace where
  pubs : List PubEvent := []
  events : List EmitEvent := []
  dbWriteCalls : Nat := 0
  outcome : Except ErrInfo JPrim
deriving Repr

/-- Outcome of a database write call
(`\x7berrors?, first_error?, changes\x7d` or a rejected promise). -/
inductive DbWriteRes where
  | okRes (new_val : JRecord)
  | errRes (first_error : List Char)
  | rejectedRes (e : ErrInfo)
deriving Repr

/-- The failure branch of `_create`'s `savedHandler`: emit `error` and
`createFail`, reject. -/
def createFailTrace (e : ErrInfo) (writes : Nat) : OpTrace :=
  { events := [.errorE e, .createFailE e], dbWriteCalls := writes,
    outcome := .error e }

/-- `_create(query)` with the model validator's presence and result and
the insert's outcome supplied as parameters.  Resolves with the
inserted id. -/
def runCreate (ctx : EngineCtx) (validatorPresent : Bool) (q : Query)
    (validated : Except ErrInfo JRecord) (ins : DbWriteRes) : OpTrace :=
  if !validatorPresent then
    createFailTrace { name := "CRUDInvalidModelType" } 0
  else
    match q.value with
    | some (.record _) =>
      match validated with
      | .error e => createFailTrace e 0
      | .ok _ =>
        match ins with
        | .errRes msg => createFailTrace (createDbError msg) 1
        | .rejectedRes e => createFailTrace e 1
        | .okRes new_val =>
          { pubs := createSuccessPubs ctx q new_val,
            events := [.createdE], dbWriteCalls := 1,
            outcome := .ok (jget new_val "id") }
    | _ => createFailTrace { name := "CRUDInvalidParams" } 0

/-- The failure branch of `_update`'s `savedHandler`: emit `error` and
`updateFail`, reject; nothing is published. -/
def updateFailTrace (e : ErrInfo) (writes : Nat) : OpTrace :=
  { events := [.errorE e, .updateFailE e], dbWriteCalls := writes,
    outcome := .error e }

/-- `_update(query)`.  Parameters supply the outcome of the initial
`get` (the loaded instance, possibly `null`), of the post access
filter, of the partial model validation of the incoming value, and of
the `update(..., \x7breturnChanges: true\x7d)` write.  The embedded
branch structure follows the source: missing model type, missing id,
the `field === 'id'` rejection, the primitive-value rejection, then
the task chain ending in the success handler. -/
def runUpdate (ctx : EngineCtx) (validatorPresent : Bool) (q : Query)
    (dbGet : Except ErrInfo (Option JRecord)) (postFilter : Except ErrInfo Unit)
    (validated : Except ErrInfo JRecord) (upd : DbWriteRes) : OpTrace :=
  if !validatorPresent then
    updateFailTrace { name := "CRUDInvalidModelType" } 0
  else if q.id = none then
    updateFailTrace { name := "CRUDInvalidParams" } 0
  else
    let proceed : Unit → OpTrace := fun _ =>
      match dbGet with
      | .error e => updateFailTrace e 0
      | .ok modelInstance =>
        let oldAffectedViewData := getQueryAffectedViews ctx q modelInstance
        match postFilter with
        | .error e => updateFailTrace e 0
        | .ok _ =>
          match validated with
          | .error e => updateFailTrace e 0
          | .ok _ =>
            match upd with
            | .errRes msg => updateFailTrace (createDbError msg) 1
            | .rejectedRes e => updateFailTrace e 1
            | .okRes new_val =>
              { pubs := updateSuccessPubs ctx q oldAffectedViewData new_val,
                events := [.updatedE], dbWriteCalls := 1,
                outcome := .ok .undefined }
    match q.field with
    | some f =>
      if f = "id" then
        updateFailTrace { name := "CRUDInvalidOperation" } 0
      else proceed ()
    | none =>
      match q.value with
      | some (.record _) => proceed ()
      | _ => updateFailTrace { name := "CRUDInvalidOperation" } 0

/-! ## External notify API (src/index.js) -/

/-- `getModifiedResourceFields(\x7boldResource, newResource\x7d)`: map
every changed field (union of both key sets, strict inequality) to its
`\x7bbefore, after\x7d` pair. -/
def getModifiedResourceFields (oldResource newResource : JRecord) :
    List (String × (JPrim × JPrim)) :=
  let m1 := oldResource.foldl (fun m p =>
    if jget oldResource p.1 != jget newResource p.1 then
      aset m p.1 (jget oldResource p.1, jget newResource p.1)
    else m) []
  newResource.foldl (fun m p =>
    if (alookup m p.1).isNone &&
        jget newResource p.1 != jget oldResource p.1 then
      aset m p.1 (jget oldResource p.1, jget newResource p.1)
    else m) m1

/-- The `fields` argument of `notifyResourceUpdate`: an array of field
names or an object of field/value pairs (after `|| []`). -/
inductive FieldsArg where
  | arrF (fields : List String)
  | objF (fields : JRecord)
deriving DecidableEq, Repr

def invalidArgumentsError : ErrInfo := { name := "InvalidArgumentsError" }

/-- `notifyResourceUpdate(updateDetails)` as a publication list:
resource channel, then one field channel per updated field (name-only
for the array form and for function values; with the new value for the
object form).  `none` arguments stand for `undefined` properties, which
the guards reject. -/
def notifyResourceUpdatePubs (type : JPrim) (id : JPrim)
    (fields : Option FieldsArg) : Except ErrInfo (List PubEvent) :=
  if type == .undefined then .error invalidArgumentsError
  else if id == .undefined then .error invalidArgumentsError
  else
    match fields with
    | none => .error invalidArgumentsError
    | some fa =>
      .ok (.resourceCh (jsToString type) id ::
        match fa with
        | .arrF fs => fs.map (fun f => .fieldCh (jsToString type) id f none)
        | .objF r => r.map (fun p =>
            if p.2 = .jfun then .fieldCh (jsToString type) id p.1 none
            else .fieldCh (jsToString type) id p.1
              (some (.updateVal (.prim p.2)))))

/-- `notifyViewUpdate(updateDetails, operation)`: guard the arguments,
then publish once on the view channel. -/
def notifyViewUpdatePub (view : JPrim) (params : Option JRecord)
    (type : JPrim) (operation : Option ViewPayload) :
    Except ErrInfo PubEvent :=
  if type == .undefined then .error invalidArgumentsError
  else if view == .undefined then .error invalidArgumentsError
  else
    match params with
    | none => .error invalidArgumentsError
    | some ps => .ok (.viewCh view (some ps) type operation)

/-- The old/new resource arguments of `notifyUpdate`: absent
(`undefined`), `null`, or a document. -/
inductive MaybeRec where
  | undefR
  | nullR
  | recR (r : JRecord)
deriving DecidableEq, Repr

def maybeRecOrEmpty : MaybeRec → JRecord
  | .recR r => r
  | _ => []

/-- A thrown `TypeError` (reading a property of `undefined`); reachable
in `notifyUpdate` only if a view affected for the old resource is not
affected for the new one, which the shared candidate list and field
filter rule out. -/
def typeErrorInfo : ErrInfo := { name := "TypeError" }

/-- `notifyUpdate(updateDetails)` as a publication list.  Guards;
compute the modified fields; return immediately when none differ;
otherwise notify the resource channel and field channels, then replay
the view transitions against the (old, new) affected-view lists. -/
def notifyUpdatePubs (ctx : EngineCtx) (type : JPrim)
    (oldResourceArg newResourceArg : MaybeRec) :
    Except ErrInfo (List PubEvent) :=
  if type == .undefined then .error invalidArgumentsError
  else if oldResourceArg = .undefR && newResourceArg = .undefR then
    .error invalidArgumentsError
  else
    let refResource := match oldResourceArg with
      | .recR r => r
      | _ => maybeRecOrEmpty newResourceArg
    let oldResource := maybeRecOrEmpty oldResourceArg
    let newResource := maybeRecOrEmpty newResourceArg
    let updatedFieldsList :=
      (getModifiedResourceFields oldResource newResource).map (fun p => p.1)
    if updatedFieldsList.isEmpty then .ok []
    else
      match notifyResourceUpdatePubs type (jget refResource "id")
          (some (.arrF updatedFieldsList)) with
      | .error e => .error e
      | .ok basePubs =>
        let oldResourceAffectedViews := getAffectedViews ctx
          { type := type, resource := some oldResource,
            fields := some updatedFieldsList }
        let newResourceAffectedViews := getAffectedViews ctx
          { type := type, resource := some newResource,
            fields := some updatedFieldsList }
        let newViewDataMap := newResourceAffectedViews.foldl
          (fun m vd => aset m vd.view vd) []
        let oldViewParamsMap := oldResourceAffectedViews.foldl
          (fun m vd => aset m vd.view vd.params) []
        let oldPubs : Except ErrInfo (List PubEvent) :=
          oldResourceAffectedViews.foldlM (fun acc vd => do
            -- `updateDetails.newResource == null` matches both `null`
            -- and an absent property.
            let operation : ViewPayload ←
              if newResourceArg = .undefR || newResourceArg = .nullR then
                pure { opType := "delete",
                       value := mkViewValue (jget refResource "id")
                         vd.affectingData }
              else
                match alookup newViewDataMap vd.view with
                | some newViewData =>
                  pure { opType := "update",
                         value := mkViewValue (jget refResource "id")
                           newViewData.affectingData }
                | none => .error typeErrorInfo
            match notifyViewUpdatePub (.str vd.view) (some vd.params) vd.type
                (some operation) with
            | .error e => .error e
            | .ok pub => pure (acc ++ [pub])) []
        match oldPubs with
        | .error e => .error e
        | .ok oldPubList =>
          let newPubs : Except ErrInfo (List PubEvent) :=
            newResourceAffectedViews.foldlM (fun acc vd =>
              if !areObjectsEqual (alookup oldViewParamsMap vd.view)
                  (some vd.params) then
                let operation : ViewPayload :=
                  if oldResourceArg = .undefR || oldResourceArg = .nullR then
                    { opType := "create",
                      value := mkViewValue (jget refResource "id")
                        vd.affectingData }
                  else
                    { opType := "update",
                      value := mkViewValue (jget refResource "id")
                        vd.affectingData }
                match notifyViewUpdatePub (.str vd.view) (some vd.params)
                    vd.type (some operation) with
                | .error e => .error e
                | .ok pub => pure (acc ++ [pub])
              else pure acc) []
          match newPubs with
          | .error e => .error e
          | .ok newPubList => .ok (basePubs ++ oldPubList ++ newPubList)

/-! ## Collection reads (src/index.js, `_read`, no-id branch)

The database fetch requests `pageSize + 1` id-plucked records; the
handler returns the first `min(length, pageSize)` ids and flags the
last page iff fewer than `pageSize + 1` records came back. -/

/-- `data[i].id || null`. -/
def idOrNull (r : JRecord) : JPrim :=
  if jsTruthy (jget r "id") then jget r "id" else .jnull

/-- The `\x7bdata, count?, isLastPage?\x7d` object of a collection
read (`isLastPage` is only attached when true; it is modelled as a
boolean). -/
structure PageResult where
  data : List JPrim
  count : Option Nat
  isLastPage : Bool
deriving DecidableEq, Repr

/-- The collection branch of `_read`'s `loadedHandler`. -/
def readCollectionResult (pageSize : Nat) (data : List JRecord)
    (getCount : Bool) (count : Nat) : PageResult :=
  { data := (List.range (min data.length pageSize)).map
      (fun i => idOrNull (data.getD i [])),
    count := if getCount then some count else none,
    isLastPage := data.length < pageSize + 1 }

/-! ## Type constraints (src/unnamed/part_002, `TypeConstraint`)

A constraint is a composition of named validators (an insertion-ordered
map, as `Object.values` enumerates it) with the `required`/`allowNull`
option flags.  A validator sanitizes or throws. -/

structure TCOptions where
  required : Bool := false
  allowNull : Bool := false
deriving DecidableEq, Repr

/-- The state of a `TypeConstraint` instance. -/
structure TypeConstraintM where
  validators : List (String × (JPrim → Except ErrInfo JPrim)) := []
  options : TCOptions := {}

/-- `TypeConstraint#validate(value)`: accept `null` under `allowNull`
and `undefined` when not `required`; otherwise thread the value through
each validator in registration order (an exception aborts the loop). -/
def TypeConstraintM.validate (c : TypeConstraintM) (v : JPrim) :
    Except ErrInfo JPrim :=
  if (c.options.allowNull && v == .jnull) ||
      (!c.options.required && v == .undefined) then
    .ok v
  else
    c.validators.foldl (fun value p => value.bind p.2) (.ok v)

/-- Explicit sequential threading of validators (the loop
`for (let validator of Object.values(this.validators))
\x7b value = validator(value); \x7d` with exception propagation). -/
def runValidators : List (String × (JPrim → Except ErrInfo JPrim)) → JPrim →
    Except ErrInfo JPrim
  | [], v => .ok v
  | p :: rest, v =>
    match p.2 v with
    | .ok v2 => runValidators rest v2
    | .error e => .error e

/-! ## Outbound publish filter (src/access-controller.js, MIDDLEWARE_OUTBOUND)

For a `PUBLISH_OUT` action: an optional caller-supplied middleware
function runs first (a throw blocks with the error); then, for object
payloads, the publisher metadata is destructured away and the echo
suppression logic applies. -/

/-- The settlement of a `PUBLISH_OUT` action. -/
inductive OutDecision where
  | allowPayload (payload : JRecord)
  | allowUnchanged
  | blockSilent
  | blockWith (e : ErrInfo)
deriving DecidableEq, Repr

/-- The `PUBLISH_OUT` branch of the outbound middleware consumer. -/
def handlePublishOut (customMiddleware : Except ErrInfo Unit)
    (socketId : String) (actionData : JVal) : OutDecision :=
  match customMiddleware with
  | .error e => .blockWith e
  | .ok _ =>
    match actionData with
    | .record r =>
      let publisherSocketId := jget r "publisherSocketId"
      let publisherId := jget r "publisherId"
      let payload := jremove (jremove r "publisherSocketId") "publisherId"
      if publisherSocketId == .str socketId then
        if jsTruthy publisherId then
          .allowPayload (jset payload "publisherId" publisherId)
        else
          .blockSilent
      else
        .allowPayload payload
    | .prim _ => .allowUnchanged

/-! ## Claim-level predicates and concrete scenarios -/

/-- The publication ordering asserted by the spec for a single write:
the resource channel comes first, and no resource-field publication
occurs after a view publication. -/
def pubsInClaimOrder (t : String) (i : JPrim) (l : List PubEvent) : Prop :=
  l.head? = some (.resourceCh t i) ∧
  l.Pairwise (fun a b => ¬(isViewPub a = true ∧ isFieldPub b = true))

/-- Ordering with the view publications first (what the
whole-document delete path actually does). -/
def noViewAfterField (l : List PubEvent) : Prop :=
  l.Pairwise (fun a b => ¬(isFieldPub a = true ∧ isViewPub b = true))

/-- Single-flight invariant of the cache machine: no path has two
outstanding providers, and every outstanding path still has its cache
entry. -/
def cacheInv (s : CacheState) : Prop :=
  s.outstanding.Nodup ∧ ∀ p ∈ s.outstanding, (alookup s.cache p).isSome

/-- Foreign-view scenario (spec §8 scenario C): the `byUser` view is
declared on `Item` with `paramFields: ['id']` and
`foreignAffectingFields: \x7bUser: []\x7d`, and `Item` declares a
relation deriving `id` under the `User` namespace.  The compiled
indices are as the constructor builds them. -/
def c1Ctx : EngineCtx :=
  { schemaViews := [("User", []), ("Item", [("byUser", { paramFields := ["id"] })])],
    foreignViews :=
      [("User", [("byUser",
        { paramFields := ["id"], affectingFields := [], parentType := "Item" })])],
    typeRelations := [("User", [("Item", [("id", fun _ => .str "mappedOwner")])])] }

def c1Resource : JRecord := [("id", .str "u1"), ("ownerId", .str "o9")]

/-- Concrete whole-document delete for the ordering counterexample:
one declared schema field and one affected view. -/
def c2Query : Query := { type := "Item", id := some "i1" }

def c2OldView : AffectedView :=
  { view := "byOwner", type := .str "Item",
    params := [("owner", .str "u1")],
    affectingData := [("owner", .str "u1")] }

def c2DeletePubs : List PubEvent :=
  deleteSuccessPubs {} c2Query [c2OldView] (some ["owner"]) []

/-- Concrete failed load: one `pass` launches a provider for `T/1`,
then the provider rejects. -/
def c3Query : CQuery := { type := .str "T", id := .str "1" }

def c3Err : ErrInfo := { name := "DatabaseError" }

def c3StateLaunched : CacheState := (passStep initCacheState c3Query 0).1

def c3StateFailed : CacheState := failStep c3StateLaunched "T/1" c3Err

/-- Concrete trace violating global single-flight: `pass` launches a
provider, the pending entry is evicted (TTL expiry or `clear`) while
the provider is still in flight, and a second `pass` launches a second
provider for the same path. -/
def c4Query : CQuery := { type := .str "Movie", id := .str "m1" }

def c4State3 : CacheState :=
  (passStep (evictStep (passStep initCacheState c4Query 10).1 "Movie/m1")
    c4Query 11).1

/-! ## Helper lemmas -/

theorem jget_cons (a : String × JPrim) (rest : JRecord) (key : String) :
    jget (a :: rest) key = if a.1 = key then a.2 else jget rest key := by
  simp only [jget]
  by_cases h : a.1 = key
  · rw [List.find?_cons_of_pos _ (by simp [h]), if_pos h]
  · rw [List.find?_cons_of_neg _ (by simp [h]), if_neg h]

theorem alookup_cons {α : Type} (a : String × α) (rest : List (String × α))
    (key : String) :
    alookup (a :: rest) key = if a.1 = key then some a.2 else alookup rest key := by
  simp only [alookup]
  by_cases h : a.1 = key
  · rw [List.find?_cons_of_pos _ (by simp [h]), if_pos h]
  · rw [List.find?_cons_of_neg _ (by simp [h]), if_neg h]

theorem jget_jset_self (r : JRecord) (k : String) (v : JPrim) :
    jget (jset r k v) k = v := by
  induction r with
  | nil => simp [jset, jget_cons]
  | cons p rest ih =>
    by_cases h : p.1 = k
    · simp [jset, h, jget_cons]
    · simp [jset, h, jget_cons, ih]

theorem jget_jset_ne (r : JRecord) (k k' : String) (v : JPrim) (h : k' ≠ k) :
    jget (jset r k v) k' = jget r k' := by
  induction r with
  | nil => simp [jset, jget_cons, jget, Ne.symm h]
  | cons p rest ih =>
    by_cases hp : p.1 = k
    · simp [jset, hp, jget_cons, Ne.symm h]
    · simp [jset, hp, jget_cons, ih]

theorem jget_jremove_self (r : JRecord) (k : String) :
    jget (jremove r k) k = .undefined := by
  induction r with
  | nil => simp [jremove, jget]
  | cons p rest ih =>
    by_cases h : p.1 = k
    · simpa [jremove, List.filter, h] using ih
    · have h1 : jremove (p :: rest) k = p :: jremove rest k := by
        simp [jremove, List.filter, h]
      rw [h1, jget_cons, if_neg h, ih]

theorem jget_jremove_ne (r : JRecord) (k k' : String) (h : k' ≠ k) :
    jget (jremove r k) k' = jget r k' := by
  induction r with
  | nil => simp [jremove]
  | cons p rest ih =>
    by_cases hp : p.1 = k
    · have h1 : jremove (p :: rest) k = jremove rest k := by
        simp [jremove, List.filter, hp]
      have h2 : p.1 ≠ k' := by rw [hp]; exact Ne.symm h
      rw [h1, ih, jget_cons, if_neg h2]
    · have h1 : jremove (p :: rest) k = p :: jremove rest k := by
        simp [jremove, List.filter, hp]
      rw [h1, jget_cons, jget_cons, ih]

theorem alookup_aset_self {α : Type} (l : List (String × α)) (k : String) (v : α) :
    alookup (aset l k v) k = some v := by
  induction l with
  | nil => simp [aset, alookup_cons]
  | cons p rest ih =>
    by_cases h : p.1 = k
    · simp [aset, h, alookup_cons]
    · simp [aset, h, alookup_cons, ih]

theorem alookup_aset_ne {α : Type} (l : List (String × α)) (k k' : String)
    (v : α) (h : k' ≠ k) :
    alookup (aset l k v) k' = alookup l k' := by
  induction l with
  | nil => simp [aset, alookup_cons, alookup, Ne.symm h]
  | cons p rest ih =>
    by_cases hp : p.1 = k
    · simp [aset, hp, alookup_cons, Ne.symm h]
    · simp [aset, hp, alookup_cons, ih]

theorem alookup_filter_self {α : Type} (l : List (String × α)) (k : String) :
    alookup (l.filter (fun p => p.1 ≠ k)) k = none := by
  induction l with
  | nil => simp [alookup]
  | cons p rest ih =>
    by_cases h : p.1 = k
    · simpa [List.filter, h] using ih
    · have : (p :: rest).filter (fun p => p.1 ≠ k) =
        p :: rest.filter (fun p => p.1 ≠ k) := by simp [List.filter, h]
      rw [this, alookup_cons, if_neg h, ih]

theorem alookup_filter_ne {α : Type} (l : List (String × α)) (k k' : String)
    (h : k' ≠ k) :
    alookup (l.filter (fun p => p.1 ≠ k)) k' = alookup l k' := by
  induction l with
  | nil => simp
  | cons p rest ih =>
    by_cases hp : p.1 = k
    · have h1 : (p :: rest).filter (fun p => p.1 ≠ k) =
        rest.filter (fun p => p.1 ≠ k) := by simp [List.filter, hp]
      have h2 : p.1 ≠ k' := by rw [hp]; exact Ne.symm h
      rw [h1, ih, alookup_cons, if_neg h2]
    · have h1 : (p :: rest).filter (fun p => p.1 ≠ k) =
        p :: rest.filter (fun p => p.1 ≠ k) := by simp [List.filter, hp]
      rw [h1, alookup_cons, alookup_cons, ih]

/-! ## C1 — relation functions are never applied by `getAffectedViews` -/

/-- **C1** (code bug).  Spec scenario: an update of type `User` reaches
the foreign view `byUser` (declared on `Item`), whose `id` param field
is declared to be derived through the relation
`typeRelations['User']['Item']['id']`.  The engine nevertheless assigns
the raw `resource.id` (`'u1'`) to `params.id` — not the relation's
mapped value (`'mappedOwner'`) — because `_mapResourceField` is invoked
with three arguments against its four-parameter signature, so the
relation lookup keys are shifted and the lookup always fails. -/
theorem c1_relation_mapping_bug :
    getAffectedViews c1Ctx { type := .str "User", resource := some c1Resource } =
      [{ view := "byUser", type := .str "Item",
         params := [("id", .str "u1")],
         affectingData := [("id", .str "u1")] }] ∧
    lookupRelation c1Ctx.typeRelations "User" "Item" "id" =
      some (fun _ => .str "mappedOwner") ∧
    jget c1Resource "id" = .str "u1" ∧
    JPrim.str "u1" ≠ JPrim.str "mappedOwner" := by
  refine ⟨rfl, rfl, rfl, by decide⟩

/-! ## C3 — provider failure leaves the pending entry cached -/

/-- **C3** (code bug).  After `pass` launches a provider for `T/1` and
the provider rejects: the registered waiter is rejected with the
provider's error, as claimed — but the pending cache entry is *not*
removed, and a subsequent `pass` for the same path within the entry's
lifetime finds the stale pending entry and launches no fresh load. -/
theorem c3_provider_failure_entry_retained :
    (passStep initCacheState c3Query 0).2 = true ∧
    c3StateFailed.rejectedLog = [(0, c3Err)] ∧
    alookup c3StateFailed.cache "T/1" = some (.pending []) ∧
    (passStep c3StateFailed c3Query 1).2 = false := by
  refine ⟨by decide, by decide, by decide, by decide⟩

/-! ## C4 — single flight -/

/-- **C4** (counterexample to the claim as stated).  "At most one
outstanding provider per resource path at any moment" fails on a
reachable trace: a provider is launched for `Movie/m1`, the pending
entry is evicted (TTL expiry or `clear`) while that provider is still
in flight, and a second `pass` then misses and launches a second
provider — two outstanding providers for the same path. -/
theorem c4_single_flight_counterexample :
    CReach c4State3 ∧ c4State3.outstanding.count "Movie/m1" = 2 := by
  constructor
  · exact CReach.passR c4Query 11
      (CReach.evictR "Movie/m1" (CReach.passR c4Query 10 CReach.init) (by decide))
  · decide

/-! ## C6 — collection reads -/

/-- **C6** (confirmed).  A collection read returns the ids of the first
`min(pageSize, n)` of the `n` fetched records (so at most `pageSize`),
attaches `count` exactly when requested, and sets `isLastPage` iff the
database returned fewer than `pageSize + 1` records for the
`pageSize + 1`-record fetch. -/
theorem c6_collection_read_page (pageSize : Nat) (data : List JRecord)
    (getCount : Bool) (count : Nat) :
    (readCollectionResult pageSize data getCount count).data =
      (data.take pageSize).map idOrNull ∧
    (readCollectionResult pageSize data getCount count).data.length =
      min data.length pageSize ∧
    (readCollectionResult pageSize data getCount count).data.length ≤ pageSize ∧
    ((readCollectionResult pageSize data getCount count).isLastPage = true ↔
      data.length < pageSize + 1) ∧
    (readCollectionResult pageSize data getCount count).count =
      (if getCount then some count else none) := by
  have hdata : (readCollectionResult pageSize data getCount count).data =
      (data.take pageSize).map idOrNull := by
    simp only [readCollectionResult]
    apply List.ext_getElem
    · simp [Nat.min_comm]
    · intro i h1 h2
      simp only [List.getElem_map, List.getElem_range]
      have hi : i < data.length := by
        simp at h1
        exact lt_of_lt_of_le h1.1 (le_refl _)
      rw [List.getElem_take, List.getD_eq_getElem data [] hi]
  refine ⟨hdata, ?_, ?_, ?_, rfl⟩
  · simp [readCollectionResult]
  · simp [readCollectionResult, Nat.min_le_right]
  · simp [readCollectionResult, Nat.lt_succ_iff]

/-! ## C8 — outbound publish filtering -/

/-- **C8** (confirmed).  For a `PUBLISH_OUT` with an object payload
(and no interfering caller-supplied middleware): when the payload's
`publisherSocketId` equals the receiving socket's id, the delivery is
blocked silently if no `publisherId` marker is carried, and otherwise a
payload preserving `publisherId` (with `publisherSocketId` stripped and
every other property intact) is delivered; when `publisherSocketId`
does not equal the socket's id, the payload is delivered with both
publisher identifiers stripped and every other property intact.
"Carries a publisherId" is read as the code's truthiness test of the
marker. -/
theorem c8_publish_out_filtering (sid : String) (r : JRecord) :
    (jget r "publisherSocketId" = .str sid → jget r "publisherId" = .undefined →
      handlePublishOut (.ok ()) sid (.record r) = .blockSilent) ∧
    (∀ pidVal, jget r "publisherSocketId" = .str sid →
      jget r "publisherId" = pidVal → jsTruthy pidVal = true →
      ∃ payload, handlePublishOut (.ok ()) sid (.record r) = .allowPayload payload ∧
        jget payload "publisherId" = pidVal ∧
        jget payload "publisherSocketId" = .undefined ∧
        ∀ k, k ≠ "publisherId" → k ≠ "publisherSocketId" →
          jget payload k = jget r k) ∧
    ((jget r "publisherSocketId" == JPrim.str sid) = false →
      ∃ payload, handlePublishOut (.ok ()) sid (.record r) = .allowPayload payload ∧
        jget payload "publisherId" = .undefined ∧
        jget payload "publisherSocketId" = .undefined ∧
        ∀ k, k ≠ "publisherId" → k ≠ "publisherSocketId" →
          jget payload k = jget r k) := by
  refine ⟨?_, ?_, ?_⟩
  · intro hsock hpid
    simp [handlePublishOut, hsock, hpid, jsTruthy]
  · intro pidVal hsock hpid htruthy
    refine ⟨jset (jremove (jremove r "publisherSocketId") "publisherId")
      "publisherId" pidVal, ?_, ?_, ?_, ?_⟩
    · simp [handlePublishOut, hsock, hpid, htruthy]
    · exact jget_jset_self _ _ _
    · rw [jget_jset_ne _ _ _ _ (by decide),
        jget_jremove_ne _ _ _ (by decide), jget_jremove_self]
    · intro k hk1 hk2
      rw [jget_jset_ne _ _ _ _ hk1, jget_jremove_ne _ _ _ hk1,
        jget_jremove_ne _ _ _ hk2]
  · intro hsock
    refine ⟨jremove (jremove r "publisherSocketId") "publisherId", ?_, ?_, ?_, ?_⟩
    · simp [handlePublishOut, hsock]
    · exact jget_jremove_self _ _
    · rw [jget_jremove_ne _ _ _ (by decide), jget_jremove_self]
    · intro k hk1 hk2
      rw [jget_jremove_ne _ _ _ hk1, jget_jremove_ne _ _ _ hk2]

/-- Witness for C8: concrete payloads exercising all three branches. -/
theorem c8_publish_out_filtering_witness :
    handlePublishOut (.ok ()) "s1"
      (.record [("publisherSocketId", .str "s1"), ("a", .num 1)]) =
      .blockSilent ∧
    (∃ payload, handlePublishOut (.ok ()) "s1"
      (.record [("publisherSocketId", .str "s1"), ("publisherId", .str "p1"),
        ("a", .num 1)]) = .allowPayload payload ∧
      jget payload "publisherId" = .str "p1" ∧
      jget payload "publisherSocketId" = .undefined ∧
      ∀ k, k ≠ "publisherId" → k ≠ "publisherSocketId" →
        jget payload k =
          jget [("publisherSocketId", .str "s1"), ("publisherId", .str "p1"),
            ("a", .num 1)] k) ∧
    (∃ payload, handlePublishOut (.ok ()) "s1"
      (.record [("publisherSocketId", .str "s2"), ("publisherId", .str "p1"),
        ("a", .num 1)]) = .allowPayload payload ∧
      jget payload "publisherId" = .undefined ∧
      jget payload "publisherSocketId" = .undefined ∧
      ∀ k, k ≠ "publisherId" → k ≠ "publisherSocketId" →
        jget payload k =
          jget [("publisherSocketId", .str "s2"), ("publisherId", .str "p1"),
            ("a", .num 1)] k) :=
  ⟨(c8_publish_out_filtering "s1"
      [("publisherSocketId", .str "s1"), ("a", .num 1)]).1 (by decide) (by decide),
   (c8_publish_out_filtering "s1"
      [("publisherSocketId", .str "s1"), ("publisherId", .str "p1"),
        ("a", .num 1)]).2.1 (.str "p1") (by decide) (by decide) (by decide),
   (c8_publish_out_filtering "s1"
      [("publisherSocketId", .str "s2"), ("publisherId", .str "p1"),
        ("a", .num 1)]).2.2 (by decide)⟩

/-! ## C9 — type constraint validation -/

theorem foldl_bind_error (vs : List (String × (JPrim → Except ErrInfo JPrim)))
    (e : ErrInfo) :
    vs.foldl (fun (value : Except ErrInfo JPrim) p => value.bind p.2)
      (.error e) = .error e := by
  induction vs with
  | nil => rfl
  | cons p rest ih => simpa [Except.bind] using ih

theorem foldl_bind_eq_runValidators
    (vs : List (String × (JPrim → Except ErrInfo JPrim))) (v : JPrim) :
    vs.foldl (fun (value : Except ErrInfo JPrim) p => value.bind p.2)
      (.ok v) = runValidators vs v := by
  induction vs generalizing v with
  | nil => rfl
  | cons p rest ih =>
    simp only [List.foldl_cons, runValidators]
    have hbind : (Except.ok v).bind p.2 = p.2 v := rfl
    rw [hbind]
    cases h : p.2 v with
    | ok v2 => exact ih v2
    | error e => exact foldl_bind_error rest e

/-- **C9** (confirmed).  `TypeConstraint#validate`: `null` is returned
unchanged under `allowNull`; `undefined` is returned unchanged when the
constraint is not `required`; in every other case the value is threaded
through the registered validators in registration order, the first
thrown error propagating. -/
theorem c9_type_constraint_validate (c : TypeConstraintM) (v : JPrim) :
    (c.options.allowNull = true →
      c.validate .jnull = .ok .jnull) ∧
    (c.options.required = false →
      c.validate .undefined = .ok .undefined) ∧
    (¬((c.options.allowNull = true ∧ v = .jnull) ∨
        (c.options.required = false ∧ v = .undefined)) →
      c.validate v = runValidators c.validators v) := by
  refine ⟨?_, ?_, ?_⟩
  · intro h
    simp [TypeConstraintM.validate, h]
  · intro h
    simp [TypeConstraintM.validate, h]
  · intro h
    have h1 : c.options.allowNull = true → v ≠ .jnull :=
      fun ha hv => h (Or.inl ⟨ha, hv⟩)
    have h2 : c.options.required = false → v ≠ .undefined :=
      fun hr hv => h (Or.inr ⟨hr, hv⟩)
    have hguard : ((c.options.allowNull && v == .jnull) ||
        (!c.options.required && v == .undefined)) = false := by
      cases ha : c.options.allowNull with
      | false =>
        cases hr : c.options.required with
        | false => simp [beq_iff_eq, h2 hr]
        | true => simp
      | true =>
        cases hr : c.options.required with
        | false => simp [beq_iff_eq, h1 ha, h2 hr]
        | true => simp [beq_iff_eq, h1 ha]
    simp [TypeConstraintM.validate, hguard, foldl_bind_eq_runValidators]

/-- Witness for C9: a string-typed constraint with `allowNull`, not
`required`, and one sanitizing validator. -/
theorem c9_type_constraint_validate_witness :
    ({ validators := [("string",
        fun v => match v with
          | .str s => .ok (.str s)
          | _ => .error { name := "Error" })],
       options := { allowNull := true } } : TypeConstraintM).validate .jnull =
        .ok .jnull ∧
    ({ validators := [("string",
        fun v => match v with
          | .str s => .ok (.str s)
          | _ => .error { name := "Error" })],
       options := { allowNull := true } } : TypeConstraintM).validate .undefined =
        .ok .undefined ∧
    ({ validators := [("string",
        fun v => match v with
          | .str s => .ok (.str s)
          | _ => .error { name := "Error" })],
       options := { allowNull := true } } : TypeConstraintM).validate
        (.str "a") =
      runValidators [("string",
        fun v => match v with
          | .str s => .ok (.str s)
          | _ => .error { name := "Error" })] (.str "a") :=
  ⟨(c9_type_constraint_validate _ (.str "a")).1 rfl,
   (c9_type_constraint_validate _ (.str "a")).2.1 rfl,
   (c9_type_constraint_validate _ (.str "a")).2.2 (by simp)⟩

/-! ## C7 — updates of the id field are rejected -/

/-- **C7** (confirmed).  For an update query on a schema model with an
id and `field === 'id'`: the operation fails with a
`CRUDInvalidOperation` error, performs no database write, publishes
nothing, and emits the `error` and `updateFail` events carrying that
error — regardless of the database, filter, or validator outcomes. -/
theorem c7_update_id_field_rejected (ctx : EngineCtx) (q : Query)
    (dbGet : Except ErrInfo (Option JRecord)) (postFilter : Except ErrInfo Unit)
    (validated : Except ErrInfo JRecord) (upd : DbWriteRes)
    (hid : q.id ≠ none) (hf : q.field = some "id") :
    runUpdate ctx true q dbGet postFilter validated upd =
      { pubs := [],
        events := [.errorE { name := "CRUDInvalidOperation" },
                   .updateFailE { name := "CRUDInvalidOperation" }],
        dbWriteCalls := 0,
        outcome := .error { name := "CRUDInvalidOperation" } } := by
  simp [runUpdate, hid, hf, updateFailTrace]

/-- Witness for C7: a concrete id-field update query. -/
theorem c7_update_id_field_rejected_witness :
    runUpdate {} true { type := "T", id := some "1", field := some "id" }
      (.ok none) (.ok ()) (.ok []) (.okRes []) =
      { pubs := [],
        events := [.errorE { name := "CRUDInvalidOperation" },
                   .updateFailE { name := "CRUDInvalidOperation" }],
        dbWriteCalls := 0,
        outcome := .error { name := "CRUDInvalidOperation" } } :=
  c7_update_id_field_rejected {} _ _ _ _ _ (by decide) rfl

/-! ## C10 — no-op external update notifications -/

/-- **C10** (confirmed).  A `notifyUpdate` call whose old and new
resources have no differing fields (the modified-field map is empty)
returns without any publication: no resource-channel, field-channel,
or view-channel publish occurs. -/
theorem c10_notify_update_no_changes (ctx : EngineCtx) (t : JPrim)
    (oldA newA : MaybeRec) (ht : t ≠ .undefined)
    (hboth : ¬(oldA = .undefR ∧ newA = .undefR))
    (hmod : getModifiedResourceFields (maybeRecOrEmpty oldA)
      (maybeRecOrEmpty newA) = []) :
    notifyUpdatePubs ctx t oldA newA = .ok [] := by
  have htb : (t == JPrim.undefined) = false := by
    simp [beq_iff_eq, ht]
  have hcond : (decide (oldA = .undefR) && decide (newA = .undefR)) = false := by
    by_cases h1 : oldA = .undefR
    · have h2 : newA ≠ .undefR := fun h2 => hboth ⟨h1, h2⟩
      simp [h1, h2]
    · simp [h1]
  simp [notifyUpdatePubs, htb, hcond, hmod]

/-- Witness for C10: identical one-field resources. -/
theorem c10_notify_update_no_changes_witness :
    notifyUpdatePubs {} (.str "T") (.recR [("a", .num 1)])
      (.recR [("a", .num 1)]) = .ok [] :=
  c10_notify_update_no_changes {} (.str "T") (.recR [("a", .num 1)])
    (.recR [("a", .num 1)]) (by decide) (by decide) (by decide)

/-! ## C2 — publication ordering -/

theorem isViewPub_false_of_field (e : PubEvent) (h : isFieldPub e = true) :
    isViewPub e = false := by
  cases e <;> simp_all [isFieldPub, isViewPub]

theorem isFieldPub_false_of_view (e : PubEvent) (h : isViewPub e = true) :
    isFieldPub e = false := by
  cases e <;> simp_all [isFieldPub, isViewPub]

theorem pairwise_of_mem {α : Type} {R : α → α → Prop} {l : List α}
    (h : ∀ a ∈ l, ∀ b ∈ l, R a b) : l.Pairwise R := by
  induction l with
  | nil => exact List.Pairwise.nil
  | cons x rest ih =>
    refine List.Pairwise.cons ?_ (ih ?_)
    · intro b hb
      exact h x (List.mem_cons_self x rest) b (List.mem_cons_of_mem x hb)
    · intro a ha b hb
      exact h a (List.mem_cons_of_mem x ha) b (List.mem_cons_of_mem x hb)

/-- Field publications followed by view publications satisfy
"no field publication after a view publication". -/
theorem pairwise_no_view_then_field (A B : List PubEvent)
    (hA : ∀ e ∈ A, isFieldPub e = true) (hB : ∀ e ∈ B, isViewPub e = true) :
    (A ++ B).Pairwise (fun a b => ¬(isViewPub a = true ∧ isFieldPub b = true)) := by
  apply List.pairwise_append.mpr
  refine ⟨?_, ?_, ?_⟩
  · apply pairwise_of_mem
    intro a ha _ _ hcontra
    rw [isViewPub_false_of_field a (hA a ha)] at hcontra
    exact Bool.false_ne_true hcontra.1
  · apply pairwise_of_mem
    intro _ _ b hb hcontra
    rw [isFieldPub_false_of_view b (hB b hb)] at hcontra
    exact Bool.false_ne_true hcontra.2
  · intro a ha _ _ hcontra
    rw [isViewPub_false_of_field a (hA a ha)] at hcontra
    exact Bool.false_ne_true hcontra.1

/-- View publications followed by field publications satisfy
"no view publication after a field publication". -/
theorem pairwise_no_field_then_view (A B : List PubEvent)
    (hA : ∀ e ∈ A, isViewPub e = true) (hB : ∀ e ∈ B, isFieldPub e = true) :
    (A ++ B).Pairwise (fun a b => ¬(isFieldPub a = true ∧ isViewPub b = true)) := by
  apply List.pairwise_append.mpr
  refine ⟨?_, ?_, ?_⟩
  · apply pairwise_of_mem
    intro a ha _ _ hcontra
    rw [isFieldPub_false_of_view a (hA a ha)] at hcontra
    exact Bool.false_ne_true hcontra.1
  · apply pairwise_of_mem
    intro _ _ b hb hcontra
    rw [isViewPub_false_of_field b (hB b hb)] at hcontra
    exact Bool.false_ne_true hcontra.2
  · intro a ha _ _ hcontra
    rw [isFieldPub_false_of_view a (hA a ha)] at hcontra
    exact Bool.false_ne_true hcontra.1

theorem updateFieldPubs_all_field (q : Query) :
    ∀ e ∈ updateFieldPubs q, isFieldPub e = true := by
  intro e he
  unfold updateFieldPubs at he
  cases hq : q.field with
  | some f =>
    rw [hq] at he
    simp only [List.mem_singleton] at he
    subst he
    rfl
  | none =>
    rw [hq] at he
    obtain ⟨p, _, rfl⟩ := List.mem_map.mp he
    rfl

/-- Invariant preservation along a `foldl` that only appends elements
satisfying `P`. -/
theorem foldl_append_invariant {α β : Type} (P : β → Prop)
    (f : List β → α → List β) (l : List α)
    (hstep : ∀ acc x, ∀ e ∈ f acc x, e ∈ acc ∨ P e) :
    ∀ acc, (∀ e ∈ acc, P e) → ∀ e ∈ l.foldl f acc, P e := by
  induction l with
  | nil => intro acc hacc e he; exact hacc e he
  | cons x rest ih =>
    intro acc hacc e he
    exact ih (f acc x)
      (fun e' he' => (hstep acc x e' he').elim (hacc e') id) e he

theorem updateViewPubs_all_view (ctx : EngineCtx) (q : Query)
    (oldAffected : List AffectedView) (result : JRecord) :
    ∀ e ∈ updateViewPubs ctx q oldAffected result, isViewPub e = true := by
  unfold updateViewPubs
  apply foldl_append_invariant (fun e => isViewPub e = true)
  · intro acc vd e he
    dsimp only at he
    by_cases h1 : areObjectsEqual
        ((alookup (oldAffected.foldl (fun m vd =>
          aset m (vd.view ++ ":" ++ jsToString vd.type) vd) [])
            (vd.view ++ ":" ++ jsToString vd.type)).map (·.params))
        (some vd.params)
    · rw [if_pos h1] at he
      by_cases h2 : areObjectsEqual
          ((alookup (oldAffected.foldl (fun m vd =>
            aset m (vd.view ++ ":" ++ jsToString vd.type) vd) [])
              (vd.view ++ ":" ++ jsToString vd.type)).map (·.affectingData))
          (some vd.affectingData)
      · rw [if_pos h2] at he
        exact Or.inl he
      · rw [if_neg h2] at he
        rcases List.mem_append.mp he with h | h
        · exact Or.inl h
        · simp only [List.mem_singleton] at h
          subst h
          exact Or.inr rfl
    · rw [if_neg h1] at he
      rcases List.mem_append.mp he with h | h
      · exact Or.inl h
      · rcases List.mem_cons.mp h with h' | h'
        · subst h'
          exact Or.inr rfl
        · simp only [List.mem_singleton] at h'
          subst h'
          exact Or.inr rfl
  · intro e he
    exact absurd he (List.not_mem_nil e)

/-- **C2** (counterexample to the claim as stated).  A whole-document
delete on a model with one declared field and one affected view
publishes the view channel *before* the field channel, violating
"resource first, then all field channels, then all view channels". -/
theorem c2_delete_order_counterexample :
    ¬ pubsInClaimOrder "Item" (.str "i1") c2DeletePubs := by
  intro h
  have hp := h.2
  rw [show c2DeletePubs =
    [.resourceCh "Item" (.str "i1"),
     .viewCh (.str "byOwner") (some [("owner", .str "u1")]) (.str "Item")
       (some { opType := "delete",
               value := [("id", .str "i1"), ("owner", .str "u1")] }),
     .fieldCh "Item" (.str "i1") "owner" (some .deleteMark)] from rfl] at hp
  rcases List.pairwise_cons.mp hp with ⟨_, hp2⟩
  rcases List.pairwise_cons.mp hp2 with ⟨hrel, _⟩
  exact hrel _ (List.mem_singleton.mpr rfl) ⟨rfl, rfl⟩

/-- **C2** (amended).  The resource channel always comes first.  For
update and create writes, every field publication precedes every view
publication (the claim's order); for a whole-document delete the code
publishes the view channels *before* the field channels; a field
delete publishes exactly the resource channel followed by the single
field channel. -/
theorem c2_publication_order_amended :
    (∀ (ctx : EngineCtx) (q : Query) (oldAffected : List AffectedView)
        (result : JRecord),
      pubsInClaimOrder q.type (qid q) (updateSuccessPubs ctx q oldAffected result)) ∧
    (∀ (ctx : EngineCtx) (q : Query) (result : JRecord),
      pubsInClaimOrder q.type (jget result "id") (createSuccessPubs ctx q result)) ∧
    (∀ (ctx : EngineCtx) (q : Query) (oldAffected : List AffectedView)
        (schemaFields : Option (List String)) (result : JRecord),
      (deleteSuccessPubs ctx q oldAffected schemaFields result).head? =
        some (.resourceCh q.type (qid q)) ∧
      (q.field = none →
        noViewAfterField (deleteSuccessPubs ctx q oldAffected schemaFields result)) ∧
      (∀ f, q.field = some f →
        deleteSuccessPubs ctx q oldAffected schemaFields result =
          [.resourceCh q.type (qid q),
           .fieldCh q.type (qid q) f (some .deleteMark)])) := by
  refine ⟨?_, ?_, ?_⟩
  · intro ctx q oldAffected result
    refine ⟨rfl, ?_⟩
    unfold updateSuccessPubs
    refine List.Pairwise.cons ?_ ?_
    · intro b _ hcontra
      exact Bool.false_ne_true hcontra.1
    · exact pairwise_no_view_then_field _ _
        (updateFieldPubs_all_field q)
        (updateViewPubs_all_view ctx q oldAffected result)
  · intro ctx q result
    refine ⟨rfl, ?_⟩
    unfold createSuccessPubs
    refine List.Pairwise.cons ?_ ?_
    · intro b _ hcontra
      exact Bool.false_ne_true hcontra.1
    · have := pairwise_no_view_then_field []
        ((getQueryAffectedViews ctx q (some result)).map (fun vd =>
          .viewCh (.str vd.view) (some vd.params) vd.type
            (some { opType := "create",
                    value := mkViewValue (jget result "id") vd.affectingData })))
        (by intro e he; exact absurd he (List.not_mem_nil e))
        (by intro e he; obtain ⟨vd, _, rfl⟩ := List.mem_map.mp he; rfl)
      simpa using this
  · intro ctx q oldAffected schemaFields result
    refine ⟨?_, ?_, ?_⟩
    · cases q.field <;> rfl
    · intro hf
      unfold noViewAfterField deleteSuccessPubs
      rw [hf]
      refine List.Pairwise.cons ?_ ?_
      · intro b _ hcontra
        exact Bool.false_ne_true hcontra.1
      · exact pairwise_no_field_then_view _ _
          (by intro e he; obtain ⟨vd, _, rfl⟩ := List.mem_map.mp he; rfl)
          (by intro e he; obtain ⟨f, _, rfl⟩ := List.mem_map.mp he; rfl)
    · intro f hf
      unfold deleteSuccessPubs
      rw [hf]

/-- Witness for C2: the amended ordering at concrete writes (a field
update, the counterexample's whole-document delete, and a field
delete). -/
theorem c2_publication_order_amended_witness :
    pubsInClaimOrder "T" (.str "1")
      (updateSuccessPubs {}
        { type := "T", id := some "1", field := some "f",
          value := some (.prim (.str "v")) } [] []) ∧
    noViewAfterField c2DeletePubs ∧
    deleteSuccessPubs {} { type := "T", id := some "1", field := some "f" }
      [] none [] =
      [.resourceCh "T" (.str "1"),
       .fieldCh "T" (.str "1") "f" (some .deleteMark)] :=
  ⟨c2_publication_order_amended.1 {} _ [] [],
   (c2_publication_order_amended.2.2 {} c2Query [c2OldView]
      (some ["owner"]) []).2.1 rfl,
   (c2_publication_order_amended.2.2 {} _ [] none []).2.2 "f" rfl⟩

/-! ## C4 — single flight, amended -/

theorem cacheInv_init : cacheInv initCacheState := by
  constructor
  · exact List.nodup_nil
  · intro p hp
    exact absurd hp (List.not_mem_nil p)

theorem cacheInv_pass (s : CacheState) (q : CQuery) (wid : Nat)
    (h : cacheInv s) : cacheInv (passStep s q wid).1 := by
  cases hpath : getResourcePath q with
  | none =>
    simp only [passStep, hpath]
    exact h
  | some path =>
    cases hentry : alookup s.cache path with
    | some entry =>
      cases entry with
      | pending patch =>
        simp only [passStep, hpath, hentry]
        exact h
      | resident r =>
        simp only [passStep, hpath, hentry]
        exact h
    | none =>
      simp only [passStep, hpath, hentry]
      have hnotmem : path ∉ s.outstanding := by
        intro hmem
        have := h.2 path hmem
        rw [hentry] at this
        exact absurd this (by simp)
      constructor
      · exact List.Nodup.cons hnotmem h.1
      · intro p hp
        rcases List.mem_cons.mp hp with hp | hp
        · subst hp
          rw [alookup_aset_self]
          rfl
        · by_cases hpp : p = path
          · subst hpp
            rw [alookup_aset_self]
            rfl
          · rw [alookup_aset_ne _ _ _ _ hpp]
            exact h.2 p hp

theorem cacheInv_done (s : CacheState) (path : String) (data : JRecord)
    (h : cacheInv s) : cacheInv (doneStep s path data) := by
  unfold doneStep resolveWatchers
  constructor
  · exact h.1.erase path
  · intro p hp
    simp only at hp
    have hpmem : p ∈ s.outstanding := List.mem_of_mem_erase hp
    by_cases hpp : p = path
    · subst hpp
      show (alookup (aset s.cache p _) p).isSome
      rw [alookup_aset_self]
      rfl
    · show (alookup (aset s.cache path _) p).isSome
      rw [alookup_aset_ne _ _ _ _ hpp]
      exact h.2 p hpmem

theorem cacheInv_fail (s : CacheState) (path : String) (e : ErrInfo)
    (h : cacheInv s) : cacheInv (failStep s path e) := by
  unfold failStep rejectWatchers
  constructor
  · exact h.1.erase path
  · intro p hp
    simp only at hp
    exact h.2 p (List.mem_of_mem_erase hp)

theorem cacheInv_evict (s : CacheState) (path : String)
    (h : cacheInv s) (hout : path ∉ s.outstanding) :
    cacheInv (evictStep s path) := by
  unfold evictStep
  constructor
  · exact h.1
  · intro p hp
    have hne : p ≠ path := fun hpp => hout (hpp ▸ hp)
    show (alookup (s.cache.filter (fun p => p.1 ≠ path)) p).isSome
    rw [alookup_filter_ne _ _ _ hne]
    exact h.2 p hp

theorem cacheInv_update (s : CacheState) (q : CQuery) (value : JRecord)
    (h : cacheInv s) : cacheInv (updateStep s q value) := by
  cases hpath : getResourcePath q with
  | none =>
    simp only [updateStep, hpath]
    exact h
  | some path =>
    cases hentry : alookup s.cache path with
    | none =>
      simp only [updateStep, hpath, hentry]
      exact h
    | some entry =>
      cases entry with
      | pending patch =>
        simp only [updateStep, hpath, hentry]
        refine ⟨h.1, ?_⟩
        intro p hp
        by_cases hpp : p = path
        · subst hpp
          show (alookup (aset s.cache p _) p).isSome
          rw [alookup_aset_self]; rfl
        · show (alookup (aset s.cache path _) p).isSome
          rw [alookup_aset_ne _ _ _ _ hpp]
          exact h.2 p hp
      | resident r =>
        simp only [updateStep, hpath, hentry]
        refine ⟨h.1, ?_⟩
        intro p hp
        by_cases hpp : p = path
        · subst hpp
          show (alookup (aset s.cache p _) p).isSome
          rw [alookup_aset_self]; rfl
        · show (alookup (aset s.cache path _) p).isSome
          rw [alookup_aset_ne _ _ _ _ hpp]
          exact h.2 p hp

theorem cacheInv_of_reachSafe (s : CacheState) (h : CReachSafe s) :
    cacheInv s := by
  induction h with
  | init => exact cacheInv_init
  | passR q wid _ ih => exact cacheInv_pass _ q wid ih
  | doneR path data _ _ ih => exact cacheInv_done _ path data ih
  | failR path e _ _ ih => exact cacheInv_fail _ path e ih
  | evictR path _ _ hout ih => exact cacheInv_evict _ path ih hout
  | updateR q value _ ih => exact cacheInv_update _ q value ih

/-- **C4** (amended).  Provided no cache entry is evicted (TTL expiry
or `clear`) while a provider for its path is outstanding: at most one
provider invocation is outstanding per resource path in every reachable
state.  Unconditionally, a `pass` that finds an existing entry (pending
or resident) never launches a provider, and when a load settles, every
watcher registered for the path is resolved with the one shared value
of that load. -/
theorem c4_single_flight_amended :
    (∀ s, CReachSafe s → ∀ p, s.outstanding.count p ≤ 1) ∧
    (∀ s (q : CQuery) (wid : Nat) path, getResourcePath q = some path →
      (alookup s.cache path).isSome = true → (passStep s q wid).2 = false) ∧
    (∀ s path data, ∃ v, ∀ w ∈ (alookup s.watchers path).getD [],
      (w, v) ∈ (doneStep s path data).resolvedLog) := by
  refine ⟨?_, ?_, ?_⟩
  · intro s hs p
    exact List.nodup_iff_count_le_one.mp (cacheInv_of_reachSafe s hs).1 p
  · intro s q wid path hpath hsome
    cases hentry : alookup s.cache path with
    | none => rw [hentry] at hsome; exact absurd hsome (by simp)
    | some entry =>
      cases entry with
      | pending patch => simp only [passStep, hpath, hentry]
      | resident r => simp only [passStep, hpath, hentry]
  · intro s path data
    refine ⟨match alookup s.cache path with
      | some (.pending patch) => patch.foldl (fun d p => jset d p.1 p.2) data
      | _ => data, ?_⟩
    intro w hw
    unfold doneStep resolveWatchers
    simp only
    apply List.mem_append_right
    apply List.mem_map.mpr
    exact ⟨w, hw, rfl⟩

/-- Witness for C4: the single-flight facts at concrete states — the
initial state is safely reachable with provider count at most one, a
second `pass` while the pending entry for `Movie/m1` exists launches
nothing, and the load settlement resolves the registered watcher with
the shared value. -/
theorem c4_single_flight_amended_witness :
    ((passStep initCacheState c4Query 0).1.outstanding.count "Movie/m1" ≤ 1) ∧
    (passStep (passStep initCacheState c4Query 0).1 c4Query 1).2 = false ∧
    (∃ v, ∀ w ∈ (alookup (passStep initCacheState c4Query 0).1.watchers
        "Movie/m1").getD [],
      (w, v) ∈ (doneStep (passStep initCacheState c4Query 0).1 "Movie/m1"
        [("id", .str "m1")]).resolvedLog) :=
  ⟨c4_single_flight_amended.1 _ (CReachSafe.passR c4Query 0 CReachSafe.init)
      "Movie/m1",
   c4_single_flight_amended.2.1 _ c4Query 1 "Movie/m1" (by decide) (by decide),
   c4_single_flight_amended.2.2 _ "Movie/m1" [("id", .str "m1")]⟩

/-! ## C5 — database error classification -/

theorem lastIdxOf_none (c : Char) (cs : List Char)
    (h : lastIdxOf c cs = none) : c ∉ cs := by
  induction cs with
  | nil => exact List.not_mem_nil c
  | cons x rest ih =>
    intro hmem
    rcases List.mem_cons.mp hmem with hx | hx
    · cases hrec : lastIdxOf c rest with
      | some j => simp [lastIdxOf, hrec] at h
      | none => simp [lastIdxOf, hrec, hx.symm] at h
    · cases hrec : lastIdxOf c rest with
      | some j => simp [lastIdxOf, hrec] at h
      | none => exact ih hrec hx

theorem lastIdxOf_decomp (c : Char) (cs : List Char) (j : Nat)
    (h : lastIdxOf c cs = some j) :
    ∃ pre post, cs = pre ++ c :: post ∧ pre.length = j ∧ c ∉ post := by
  induction cs generalizing j with
  | nil => simp [lastIdxOf] at h
  | cons x rest ih =>
    cases hrec : lastIdxOf c rest with
    | some j' =>
      have hj : j = j' + 1 := by
        rw [lastIdxOf, hrec] at h
        exact (Option.some_inj.mp h).symm
      obtain ⟨pre, post, hcs, hlen, hnot⟩ := ih j' hrec
      exact ⟨x :: pre, post, by rw [hcs]; rfl, by simp [hlen, hj], hnot⟩
    | none =>
      rw [lastIdxOf, hrec] at h
      by_cases hx : x = c
      · rw [if_pos hx] at h
        have hj : j = 0 := (Option.some_inj.mp h).symm
        exact ⟨[], rest, by simp [hx], by simp [hj], lastIdxOf_none c rest hrec⟩
      · rw [if_neg hx] at h
        exact absurd h (by simp)

theorem lastIdxOf_isSome_of_mem (c : Char) (cs : List Char) (h : c ∈ cs) :
    ∃ j, lastIdxOf c cs = some j := by
  induction cs with
  | nil => exact absurd h (List.not_mem_nil c)
  | cons x rest ih =>
    cases hrec : lastIdxOf c rest with
    | some j => exact ⟨j + 1, by rw [lastIdxOf, hrec]⟩
    | none =>
      rcases List.mem_cons.mp h with hx | hx
      · exact ⟨0, by rw [lastIdxOf, hrec, if_pos hx.symm]⟩
      · exact absurd hx (lastIdxOf_none c rest hrec)

theorem lastIdxOf_ge (c : Char) (cs : List Char) (j i : Nat)
    (h : lastIdxOf c cs = some j) (hi : i < cs.length)
    (hc : cs[i] = c) : i ≤ j := by
  induction cs generalizing j i with
  | nil => exact absurd hi (Nat.not_lt_zero i)
  | cons x rest ih =>
    cases hrec : lastIdxOf c rest with
    | some j' =>
      have hj : j = j' + 1 := by
        rw [lastIdxOf, hrec] at h
        exact (Option.some_inj.mp h).symm
      cases i with
      | zero => omega
      | succ m =>
        have hm : m < rest.length := by
          simpa using hi
        have hcm : rest[m] = c := by
          simpa using hc
        have := ih j' m hrec hm hcm
        omega
    | none =>
      rw [lastIdxOf, hrec] at h
      by_cases hx : x = c
      · rw [if_pos hx] at h
        have hj : j = 0 := (Option.some_inj.mp h).symm
        cases i with
        | zero => omega
        | succ m =>
          have hm : m < rest.length := by simpa using hi
          have hcm : rest[m] = c := by simpa using hc
          have : c ∈ rest := hcm ▸ List.getElem_mem hm
          exact absurd this (lastIdxOf_none c rest hrec)
      · rw [if_neg hx] at h
        exact absurd h (by simp)

theorem takeWhile_append_of_all {p : Char → Bool} (g l : List Char)
    (hg : ∀ c ∈ g, p c = true) :
    (g ++ l).takeWhile p = g ++ l.takeWhile p := by
  induction g with
  | nil => rfl
  | cons x g' ih =>
    have hx : p x = true := hg x (List.mem_cons_self x g')
    simp only [List.cons_append, List.takeWhile_cons, hx, if_true]
    rw [ih (fun c hc => hg c (List.mem_cons_of_mem x hc))]

/-- Soundness of the capture: a successful `dupCapture` yields a
line-terminator-free group with the message decomposing around it. -/
theorem dupCapture_sound (msg k : List Char) (h : dupCapture msg = some k) :
    (∀ c ∈ k, isLineTerm c = false) ∧
    ∃ t2, msg = dupKeyStart ++ k ++ '\x60' :: t2 := by
  unfold dupCapture at h
  cases hpre : dupKeyStart.isPrefixOf msg with
  | false => rw [hpre] at h; simp at h
  | true =>
    rw [hpre] at h
    simp only [if_true] at h
    obtain ⟨tl, htl⟩ : ∃ tl, dupKeyStart ++ tl = msg :=
      List.isPrefixOf_iff_prefix.mp hpre
    subst htl
    rw [List.drop_left] at h
    cases hlast : lastIdxOf '\x60'
        (tl.takeWhile (fun c => !isLineTerm c)) with
    | none => rw [hlast] at h; simp at h
    | some j =>
      rw [hlast] at h
      simp only [Option.some_inj] at h
      obtain ⟨pre, post, hfl, hlen, _⟩ :=
        lastIdxOf_decomp '\x60' _ j hlast
      have hk : k = pre := by
        rw [← h, hfl, ← hlen, List.take_left]
      subst hk
      constructor
      · intro c hc
        have hcfl : c ∈ tl.takeWhile (fun c => !isLineTerm c) := by
          rw [hfl]
          exact List.mem_append_left _ hc
        have := List.mem_takeWhile_imp hcfl
        simpa using this
      · refine ⟨post ++ tl.dropWhile (fun c => !isLineTerm c), ?_⟩
        have htl2 : tl = k ++ '\x60' ::
            (post ++ tl.dropWhile (fun c => !isLineTerm c)) := by
          conv_lhs => rw [← List.takeWhile_append_dropWhile
            (p := fun c => !isLineTerm c) (l := tl)]
          rw [hfl]
          simp
        conv_lhs => rw [htl2]
        rw [List.append_assoc]

/-- Completeness and greediness: a message of the matching shape has a
successful capture at least as long as any witnessing group. -/
theorem dupCapture_of_match (g t : List Char)
    (hg : ∀ c ∈ g, isLineTerm c = false) :
    ∃ k, dupCapture (dupKeyStart ++ (g ++ '\x60' :: t)) = some k ∧
      g.length ≤ k.length := by
  have hpre : dupKeyStart.isPrefixOf (dupKeyStart ++ (g ++ '\x60' :: t)) = true :=
    List.isPrefixOf_iff_prefix.mpr ⟨g ++ '\x60' :: t, rfl⟩
  have hbt : isLineTerm '\x60' = false := by decide
  have hfl : (g ++ '\x60' :: t).takeWhile (fun c => !isLineTerm c) =
      g ++ '\x60' :: t.takeWhile (fun c => !isLineTerm c) := by
    rw [takeWhile_append_of_all g _ (fun c hc => by simp [hg c hc])]
    simp only [List.takeWhile_cons, hbt]
    rfl
  have hmem : '\x60' ∈ (g ++ '\x60' :: t).takeWhile (fun c => !isLineTerm c) := by
    rw [hfl]
    exact List.mem_append_right _ (List.mem_cons_self _ _)
  obtain ⟨j, hj⟩ := lastIdxOf_isSome_of_mem _ _ hmem
  refine ⟨((g ++ '\x60' :: t).takeWhile (fun c => !isLineTerm c)).take j, ?_, ?_⟩
  · unfold dupCapture
    rw [hpre]
    simp only [if_true]
    rw [List.drop_left, hj]
  · -- the character at index `g.length` of the first line is a backtick,
    -- so the last backtick is at least that far right
    have hglt : g.length <
        ((g ++ '\x60' :: t).takeWhile (fun c => !isLineTerm c)).length := by
      rw [hfl]
      simp
    have hgidx : ((g ++ '\x60' :: t).takeWhile (fun c => !isLineTerm c))[g.length] =
        '\x60' := by
      simp only [hfl]
      rw [List.getElem_append_right (Nat.le_refl g.length)]
      simp
    have hle := lastIdxOf_ge '\x60' _ j g.length hj hglt hgidx
    have hjlen : j < ((g ++ '\x60' :: t).takeWhile (fun c => !isLineTerm c)).length := by
      obtain ⟨pre, post, hdec, hlen, _⟩ := lastIdxOf_decomp _ _ _ hj
      rw [hdec]
      simp [← hlen]
    rw [List.length_take]
    omega

theorem dupCapture_none_of_no_match (msg : List Char)
    (h : ¬ ∃ g t, (∀ c ∈ g, isLineTerm c = false) ∧
      msg = dupKeyStart ++ g ++ '\x60' :: t) :
    dupCapture msg = none := by
  cases hd : dupCapture msg with
  | none => rfl
  | some k =>
    obtain ⟨hfree, t2, hdec⟩ := dupCapture_sound msg k hd
    exact absurd ⟨k, t2, hfree, hdec⟩ h

/-- **C5** (confirmed).  `errors.create` names the error
`DocumentNotFoundError` exactly when the message starts with the
document-not-found text; `DuplicatePrimaryKeyError` when the message
matches `^Duplicate primary key \x60(.*)\x60.*` (JS semantics: the
group is the greedy longest line-terminator-free run ending at a
backtick), with `primaryKey` set to the captured group;
`DatabaseError` in every other case.  A create whose insert reports a
database error fails with `errors.create(first_error)` and emits both
`error` and `createFail` carrying that error. -/
theorem c5_error_mapping :
    (∀ msg : List Char, docNotFoundStart.isPrefixOf msg = true →
      (createDbError msg).name = "DocumentNotFoundError") ∧
    (∀ msg g t : List Char,
      docNotFoundStart.isPrefixOf msg = false →
      msg = dupKeyStart ++ (g ++ '\x60' :: t) →
      (∀ c ∈ g, isLineTerm c = false) →
      (createDbError msg).name = "DuplicatePrimaryKeyError" ∧
      ∃ k : List Char, (createDbError msg).primaryKey = some k.asString ∧
        g.length ≤ k.length ∧
        (∀ c ∈ k, isLineTerm c = false) ∧
        ∃ t2, msg = dupKeyStart ++ k ++ '\x60' :: t2) ∧
    (∀ msg : List Char,
      docNotFoundStart.isPrefixOf msg = false →
      (¬ ∃ g t, (∀ c ∈ g, isLineTerm c = false) ∧
        msg = dupKeyStart ++ g ++ '\x60' :: t) →
      (createDbError msg).name = "DatabaseError") ∧
    (∀ (ctx : EngineCtx) (q : Query) (r : JRecord) (validated : JRecord)
        (msg : List Char),
      q.value = some (.record r) →
      (runCreate ctx true q (.ok validated) (.errRes msg)).events =
        [.errorE (createDbError msg), .createFailE (createDbError msg)] ∧
      (runCreate ctx true q (.ok validated) (.errRes msg)).outcome =
        .error (createDbError msg) ∧
      (runCreate ctx true q (.ok validated) (.errRes msg)).pubs = []) := by
  refine ⟨?_, ?_, ?_, ?_⟩
  · intro msg hdoc
    simp [createDbError, hdoc]
  · intro msg g t hdoc hdec hg
    obtain ⟨k, hk, hlen⟩ := dupCapture_of_match g t hg
    rw [← hdec] at hk
    obtain ⟨hfree, t2, hdec2⟩ := dupCapture_sound msg k hk
    refine ⟨by simp [createDbError, hdoc, hk], k,
      by simp [createDbError, hdoc, hk], hlen, hfree, t2, hdec2⟩
  · intro msg hdoc hnomatch
    have hd := dupCapture_none_of_no_match msg hnomatch
    simp [createDbError, hdoc, hd]
  · intro ctx q r validated msg hv
    refine ⟨?_, ?_, ?_⟩ <;> simp [runCreate, hv, createFailTrace]

/-- Witness for C5: the three message shapes and a concrete failed
insert. -/
theorem c5_error_mapping_witness :
    (createDbError
      "The query did not find a document and returned null xyz".data).name =
      "DocumentNotFoundError" ∧
    ((createDbError "Duplicate primary key \x60id9\x60.".data).name =
      "DuplicatePrimaryKeyError" ∧
     ∃ k : List Char,
       (createDbError "Duplicate primary key \x60id9\x60.".data).primaryKey =
         some k.asString ∧
       ("id9".data).length ≤ k.length ∧
       (∀ c ∈ k, isLineTerm c = false) ∧
       ∃ t2, "Duplicate primary key \x60id9\x60.".data =
         dupKeyStart ++ k ++ '\x60' :: t2) ∧
    (createDbError "something else".data).name = "DatabaseError" ∧
    (runCreate {} true { type := "T", value := some (.record [("id", .str "x")]) }
        (.ok [("id", .str "x")])
        (.errRes "Duplicate primary key \x60x\x60.".data)).events =
      [.errorE (createDbError "Duplicate primary key \x60x\x60.".data),
       .createFailE (createDbError "Duplicate primary key \x60x\x60.".data)] := by
  refine ⟨c5_error_mapping.1 _ (by decide),
    c5_error_mapping.2.1 _ "id9".data ".".data (by decide) (by decide)
      (by decide),
    c5_error_mapping.2.2.1 _ (by decide) ?_,
    (c5_error_mapping.2.2.2 {} _ [("id", .str "x")] [("id", .str "x")] _
      rfl).1⟩
  intro hmatch
  obtain ⟨g, t, _, hdec⟩ := hmatch
  have : ("something else".data).take dupKeyStart.length = dupKeyStart := by
    rw [hdec]
    exact List.take_left _ _
  exact absurd this (by decide)

end AgCrudRethink
